import Mathlib

/-
Verification of the sidebar generator in .github/scripts/generate_sidebar.py.

The script is embedded shallowly:
  * Python strings are lists of characters (`PyStr`); the handful of string
    methods the script uses (`startswith`, `endswith`, `in`, `split`, `strip`,
    `replace`, `os.path.splitext`, `urllib.parse.quote`) are defined below.
  * The filesystem seen through `os.listdir` / `os.path.isdir` / `os.walk`
    is a finite tree (`FS`); a directory listing is a list of
    (entry name, entry) pairs, in no particular order.
  * The sidebar content list built by the script is modelled as a list of
    provenance-tagged lines (`SLine`); `SLine.render` produces the exact string
    the script appends for that line, and `sidebar_text` the final file body.
-/

/-- Python strings are sequences of code points; we model them as lists of characters. -/
abbrev PyStr := List Char

/-- Python `s.startswith(pre)`. -/
def pyStartsWith (s pre : PyStr) : Bool := pre.isPrefixOf s

/-- Python `s.endswith(suf)`. -/
def pyEndsWith (s suf : PyStr) : Bool := suf.isSuffixOf s

/-- Python `needle in hay` for strings: containment as a contiguous substring. -/
def pyIn (needle hay : PyStr) : Bool := hay.tails.any fun t => needle.isPrefixOf t

/-- Python `str.split(sep)` for a single-character separator. -/
def pySplit (sep : Char) : PyStr → List PyStr
  | [] => [[]]
  | c :: cs =>
    match pySplit sep cs with
    | [] => [[]]
    | r :: rs => if c = sep then [] :: r :: rs else (c :: r) :: rs

/-- The ASCII whitespace characters stripped by Python `str.strip()`. -/
def isPySpace (c : Char) : Bool :=
  c = ' ' || c = '\t' || c = '\n' || c = '\r' || c = '\x0b' || c = '\x0c'

/-- Python `str.strip()`: remove leading and trailing whitespace. -/
def pyStrip (s : PyStr) : PyStr :=
  ((s.dropWhile isPySpace).reverse.dropWhile isPySpace).reverse

/-- Index of the last occurrence of a character in a string, if any. -/
def findLastIdx (c : Char) : PyStr → Option Nat
  | [] => none
  | x :: xs =>
    match findLastIdx c xs with
    | some i => some (i + 1)
    | none => if x = c then some 0 else none

/-- The root part of Python `os.path.splitext` applied to a bare name (one with no
path separator): everything before the last dot, except that a name whose every
character before that dot is itself a dot (e.g. `.gitignore`) is kept whole. -/
def splitextRoot (s : PyStr) : PyStr :=
  match findLastIdx '.' s with
  | none => s
  | some di => if (s.take di).any (fun c => c != '.') then s.take di else s

/-- Python `s.replace(a, b)` for single characters. -/
def pyReplace (a b : Char) (s : PyStr) : PyStr :=
  s.map fun c => if c = a then b else c

/-- Python `os.path.join(a, b)` for a relative second component. -/
def pjoin (a b : PyStr) : PyStr := a ++ '/' :: b

/-- UTF-8 encoding of one code point, as byte values. -/
def utf8Bytes (c : Char) : List Nat :=
  if c.toNat < 128 then [c.toNat]
  else if c.toNat < 2048 then [192 + c.toNat / 64, 128 + c.toNat % 64]
  else if c.toNat < 65536 then
    [224 + c.toNat / 4096, 128 + c.toNat / 64 % 64, 128 + c.toNat % 64]
  else
    [240 + c.toNat / 262144, 128 + c.toNat / 4096 % 64, 128 + c.toNat / 64 % 64,
      128 + c.toNat % 64]

/-- Bytes passed through unescaped by `urllib.parse.quote` with its default `safe`
argument: ASCII letters, digits, the characters `_`, `.`, `-`, `~`, and `/`. -/
def quoteSafeByte (b : Nat) : Bool :=
  (65 ≤ b && b ≤ 90) || (97 ≤ b && b ≤ 122) || (48 ≤ b && b ≤ 57) ||
    b == 95 || b == 46 || b == 45 || b == 126 || b == 47

/-- Uppercase hexadecimal digit for a value below 16. -/
def hexUpper (n : Nat) : Char := if n < 10 then Char.ofNat (48 + n) else Char.ofNat (55 + n)

/-- How `urllib.parse.quote` renders a single byte. -/
def quoteByte (b : Nat) : PyStr :=
  if quoteSafeByte b then [Char.ofNat b] else ['%', hexUpper (b / 16), hexUpper (b % 16)]

/-- Python `urllib.parse.quote(s)`: encode to UTF-8, then percent-escape every
byte outside the safe set. -/
def pyQuote (s : PyStr) : PyStr := ((s.map utf8Bytes).flatten.map quoteByte).flatten

/-- The loop body of `should_ignore` in generate_sidebar.py: does one gitignore
`pattern` match `path`?  `isDirPath` is the value of `os.path.isdir(path)`. -/
def pattern_matches (path : PyStr) (isDirPath : Bool) (pattern : PyStr) : Bool :=
  if pyEndsWith pattern ['/'] && isDirPath then
    pyEndsWith path pattern.dropLast || pyIn (path ++ ['/']) pattern
  else if pattern.contains '*' then
    match pySplit '*' pattern with
    | [a, b] => pyStartsWith path a && pyEndsWith path b
    | _ => false
  else
    pyIn pattern path

/-- `should_ignore(path, gitignore_patterns)` from generate_sidebar.py: the first
matching pattern short-circuits to True, otherwise False. -/
def should_ignore (path : PyStr) (isDirPath : Bool) (patterns : List PyStr) : Bool :=
  patterns.any (pattern_matches path isDirPath)

/-- `load_gitignore_patterns` from generate_sidebar.py.  The argument models the
optional `.gitignore` file: `none` when `os.path.exists` is false, `some ls` when
the file is present with lines `ls`.  Each line is cut at the first `#`, stripped,
and kept only when non-empty. -/
def load_gitignore_patterns (gitignoreFile : Option (List PyStr)) : List PyStr :=
  match gitignoreFile with
  | none => []
  | some ls =>
    (ls.map fun line => pyStrip ((pySplit '#' line).headD [])).filter fun line => !line.isEmpty

/-- `clean_filename` from generate_sidebar.py: drop the extension, then turn
hyphens and underscores into spaces. -/
def clean_filename (filename : PyStr) : PyStr :=
  pyReplace '_' ' ' (pyReplace '-' ' ' (splitextRoot filename))

/-- `generate_wiki_link` from generate_sidebar.py: the markdown fragment
`[label](url)` where the label is the cleaned name and the url is the
extension-stripped name with spaces turned into hyphens, percent-quoted. -/
def generate_wiki_link (filename : PyStr) : PyStr :=
  ('[' :: clean_filename filename) ++
    (']' :: '(' :: pyQuote (pyReplace ' ' '-' (splitextRoot filename))) ++ [')']

/-- A filesystem entry as the script observes it: a plain file, or a directory
with a listing of named children.  Symbolic links and other kinds are out of
scope, as in the script. -/
inductive FS where
  | file : FS
  | dir (children : List (PyStr × FS)) : FS

/-- The listing of an entry (empty for a plain file). -/
def FS.children : FS → List (PyStr × FS)
  | .file => []
  | .dir cs => cs

/-- The value of `os.path.isfile` on the entry. -/
def FS.isFile : FS → Bool
  | .file => true
  | .dir _ => false

/-- The value of `os.path.isdir` on the entry. -/
def FS.isDir : FS → Bool
  | .file => false
  | .dir _ => true

/-- One line appended to `sidebar_content`, tagged with the entry it was
generated from; `SLine.render` recovers the exact string the script appends. -/
inductive SLine where
  | homeHeader : SLine
  | blank : SLine
  | sectionHeader (dirname : PyStr) : SLine
  | unsortedHeader : SLine
  | subHeader (level : Nat) (dirname : PyStr) : SLine
  | leafLink (level : Nat) (filename : PyStr) : SLine
deriving DecidableEq, Repr

/-- The `"  " * level` indent of `process_directory`. -/
def indentStr (level : Nat) : PyStr := (List.replicate level "  ".toList).flatten

/-- The exact text the script appends to `sidebar_content` for each line. -/
def SLine.render : SLine → PyStr
  | .homeHeader => "### [[Home]]".toList
  | .blank => []
  | .sectionHeader d => "### ".toList ++ clean_filename d
  | .unsortedHeader => "### Unsorted".toList
  | .subHeader level d => indentStr level ++ "- **".toList ++ clean_filename d ++ "**".toList
  | .leafLink level f => indentStr level ++ "- ".toList ++ generate_wiki_link f

/-- Comparison used by Python `sorted` on listing entries: lexicographic code
point order on the names. -/
def nameLe (a b : PyStr × FS) : Prop := a.1 ≤ b.1

instance : DecidableRel nameLe := fun a b => inferInstanceAs (Decidable (a.1 ≤ b.1))

instance : IsTotal (PyStr × FS) nameLe := ⟨fun a b => le_total a.1 b.1⟩

instance : IsTrans (PyStr × FS) nameLe := ⟨fun _ _ _ h1 h2 => le_trans h1 h2⟩

/-- Python `sorted(os.listdir(...))`: a stable sort of the listing by name. -/
def sortPairs (l : List (PyStr × FS)) : List (PyStr × FS) := List.insertionSort nameLe l

/-- The `has_md_files` walk in `generate_sidebar`: `os.walk` over the whole
subtree rooted at a directory with listing `l`; true iff some file anywhere in
it (hidden or not, ignored or not) has the `.md` extension. -/
def dirHasMd : List (PyStr × FS) → Bool
  | [] => false
  | (n, FS.file) :: rest => pyEndsWith n ".md".toList || dirHasMd rest
  | (_, FS.dir cs) :: rest => dirHasMd cs || dirHasMd rest

/-- The `has_md_files` walk in `process_directory`: `os.walk` from the directory
at `path` with listing `l`, where a file only counts when `should_ignore`
rejects its walk path. -/
def walkHasMd (pats : List PyStr) : PyStr → List (PyStr × FS) → Bool
  | _, [] => false
  | path, (n, FS.file) :: rest =>
      (pyEndsWith n ".md".toList && !should_ignore (pjoin path n) false pats) ||
        walkHasMd pats path rest
  | path, (n, FS.dir cs) :: rest =>
      walkHasMd pats (pjoin path n) cs || walkHasMd pats path rest

mutual

/-- `process_directory` from generate_sidebar.py: `path` is `directory_path`,
`cs` the listing of that directory, `level` the indent level.  It first emits a
leaf link for every markdown file that is not protected (`_`), hidden (`.`) or
ignored, in sorted name order, then for every non-hidden, non-ignored
subdirectory whose walk finds a qualifying markdown file, a bold subheader
followed by the recursive rendering. -/
def process_directory (path : PyStr) (cs : List (PyStr × FS)) (level : Nat)
    (pats : List PyStr) : List SLine :=
  (((sortPairs cs).filter fun it =>
      it.2.isFile && pyEndsWith it.1 ".md".toList && !pyStartsWith it.1 ['_'] &&
        !pyStartsWith it.1 ['.'] && !should_ignore (pjoin path it.1) false pats).map
    fun it => SLine.leafLink level it.1) ++
  processSubdirs path
    ((sortPairs cs).filter fun it =>
      it.2.isDir && !pyStartsWith it.1 ['.'] && !should_ignore (pjoin path it.1) true pats)
    level pats
termination_by 2 * sizeOf cs + 1
decreasing_by
  have hle : ∀ {a b : List (PyStr × FS)}, a.Sublist b → sizeOf a ≤ sizeOf b := by
    intro a b hab
    induction hab with
    | slnil => exact le_refl _
    | cons x _ ih => simp only [List.cons.sizeOf_spec]; omega
    | cons₂ x _ ih => simp only [List.cons.sizeOf_spec]; omega
  have heq : ∀ {a b : List (PyStr × FS)}, a.Perm b → sizeOf a = sizeOf b := by
    intro a b hab
    induction hab with
    | nil => rfl
    | cons x _ ih => simp only [List.cons.sizeOf_spec]; omega
    | swap x y l => simp only [List.cons.sizeOf_spec]; omega
    | trans _ _ ih1 ih2 => omega
  have h1 := hle (List.filter_sublist
    (p := fun it =>
      it.2.isDir && !pyStartsWith it.1 ['.'] && !should_ignore (pjoin path it.1) true pats)
    (sortPairs cs))
  have h2 : sizeOf (sortPairs cs) = sizeOf cs := heq (List.perm_insertionSort nameLe cs)
  omega

/-- The subdirectory loop at the end of `process_directory`: for each entry of
the (already filtered, sorted) list `l`, skip it when its walk finds no
qualifying markdown file, otherwise emit its subheader and recurse. -/
def processSubdirs (path : PyStr) (l : List (PyStr × FS)) (level : Nat)
    (pats : List PyStr) : List SLine :=
  match l with
  | [] => []
  | (n, e) :: rest =>
    (if walkHasMd pats (pjoin path n) e.children then
       SLine.subHeader level n :: process_directory (pjoin path n) e.children (level + 1) pats
     else []) ++ processSubdirs path rest level pats
termination_by 2 * sizeOf l
decreasing_by
  · have h1 : sizeOf e.children ≤ sizeOf e := by
      cases e with
      | file => simp [FS.children]
      | dir cs2 => simp [FS.children, FS.dir.sizeOf_spec]
    simp only [List.cons.sizeOf_spec, Prod.mk.sizeOf_spec]
    omega
  · simp only [List.cons.sizeOf_spec, Prod.mk.sizeOf_spec]
    omega

end

/-- The top-level directory loop of `generate_sidebar`: for each root directory
of the (already filtered, sorted) list `l`, re-check `should_ignore`, skip it
when the unfiltered walk finds no markdown file, otherwise emit its section
header, its subtree at level 1, and a blank separator line. -/
def processTopDirs (wikiPath : PyStr) (l : List (PyStr × FS)) (pats : List PyStr) : List SLine :=
  match l with
  | [] => []
  | (n, e) :: rest =>
    (if should_ignore (pjoin wikiPath n) true pats then []
     else if !dirHasMd e.children then []
     else SLine.sectionHeader n ::
       (process_directory (pjoin wikiPath n) e.children 1 pats ++ [SLine.blank])) ++
    processTopDirs wikiPath rest pats

/-- `generate_sidebar` from generate_sidebar.py, as the list of lines it builds.
`wikiPath` is the absolute root path, `root` the listing of the root directory,
`gitignoreFile` the optional `.gitignore` contents.  The home header and a blank
line come first, then the top-level directory sections, then - when any loose
root markdown file survives the filters - the Unsorted section. -/
def generate_sidebar (wikiPath : PyStr) (root : List (PyStr × FS))
    (gitignoreFile : Option (List PyStr)) : List SLine :=
  [SLine.homeHeader, SLine.blank] ++
  processTopDirs wikiPath
    ((sortPairs root).filter fun it =>
      it.2.isDir && !pyStartsWith it.1 ['.'] &&
        !should_ignore (pjoin wikiPath it.1) true (load_gitignore_patterns gitignoreFile))
    (load_gitignore_patterns gitignoreFile) ++
  (if ((sortPairs root).filter fun it =>
      it.2.isFile && pyEndsWith it.1 ".md".toList && !pyStartsWith it.1 ['_'] &&
        !pyStartsWith it.1 ['.'] && !(it.1 == "Home.md".toList) &&
        !should_ignore (pjoin wikiPath it.1) false (load_gitignore_patterns gitignoreFile)).isEmpty
   then []
   else SLine.unsortedHeader ::
     (sortPairs ((sortPairs root).filter fun it =>
        it.2.isFile && pyEndsWith it.1 ".md".toList && !pyStartsWith it.1 ['_'] &&
          !pyStartsWith it.1 ['.'] && !(it.1 == "Home.md".toList) &&
          !should_ignore (pjoin wikiPath it.1) false (load_gitignore_patterns gitignoreFile))).map
       fun it => SLine.leafLink 0 it.1)

/-- Join with newlines, as `"\n".join(sidebar_content)`. -/
def joinLines : List PyStr → PyStr
  | [] => []
  | [l] => l
  | l :: l2 :: ls => l ++ '\n' :: joinLines (l2 :: ls)

/-- The byte content written to the output file by `generate_sidebar`. -/
def sidebar_text (wikiPath : PyStr) (root : List (PyStr × FS))
    (gitignoreFile : Option (List PyStr)) : PyStr :=
  joinLines ((generate_sidebar wikiPath root gitignoreFile).map SLine.render)

/-- The reserved-marker discipline a sidebar line can satisfy: a leaf link must
come from a file that is neither protected (`_`) nor hidden (`.`), and a section
or subsection header from a directory that is not hidden (`.`). -/
def lineOk : SLine → Bool
  | .leafLink _ f => !pyStartsWith f ['_'] && !pyStartsWith f ['.']
  | .sectionHeader d => !pyStartsWith d ['.']
  | .subHeader _ d => !pyStartsWith d ['.']
  | _ => true

/-- Strict comparison of listing entries by name. -/
def nameLt (a b : PyStr × FS) : Prop := a.1 < b.1

instance : IsAntisymm (PyStr × FS) nameLt := ⟨fun _ _ h1 h2 => absurd h2 (lt_asymm h1)⟩

theorem pyEndsWith_iff {s suf : PyStr} : pyEndsWith s suf = true ↔ suf <:+ s := by
  simp [pyEndsWith, List.isSuffixOf_iff_suffix]

theorem pyStartsWith_iff {s pre : PyStr} : pyStartsWith s pre = true ↔ pre <+: s := by
  simp [pyStartsWith, List.isPrefixOf_iff_prefix]

theorem pyIn_iff {needle hay : PyStr} : pyIn needle hay = true ↔ needle <:+: hay := by
  simp only [pyIn, List.any_eq_true, List.mem_tails, List.isPrefixOf_iff_prefix]
  constructor
  · rintro ⟨t, hts, htp⟩
    exact List.infix_iff_prefix_suffix.mpr ⟨t, htp, hts⟩
  · intro h
    obtain ⟨t, htp, hts⟩ := List.infix_iff_prefix_suffix.mp h
    exact ⟨t, hts, htp⟩

theorem pyQuote_cons (c : Char) (s : PyStr) :
    pyQuote (c :: s) = ((utf8Bytes c).map quoteByte).flatten ++ pyQuote s := by
  simp [pyQuote]

theorem pyQuote_safe_char {c : Char}
    (h : (65 ≤ c.toNat ∧ c.toNat ≤ 90) ∨ (97 ≤ c.toNat ∧ c.toNat ≤ 122) ∨
         (48 ≤ c.toNat ∧ c.toNat ≤ 57) ∨ c = '-') :
    ((utf8Bytes c).map quoteByte).flatten = [c] := by
  have hlt : c.toNat < 128 := by
    rcases h with h | h | h | h
    · omega
    · omega
    · omega
    · subst h; decide
  have hsafe : quoteSafeByte c.toNat = true := by
    rcases h with h | h | h | h
    · simp [quoteSafeByte]; omega
    · simp [quoteSafeByte]; omega
    · simp [quoteSafeByte]; omega
    · subst h; decide
  simp [utf8Bytes, hlt, quoteByte, hsafe, Char.ofNat_toNat]

/-- C3 counterexample: the claim's identifier for `My-File_Name.md` is
`My-File-Name`, but the script keeps the underscore: only spaces are turned into
hyphens before quoting, so the link is `[My File Name](My-File_Name)`. -/
theorem C3_link_counterexample :
    generate_wiki_link "My-File_Name.md".toList ≠ "[My File Name](My-File-Name)".toList := by
  decide

/-- C3 (amended): `generate_wiki_link "My-File_Name.md"` has label `My File Name`
and identifier `My-File_Name`; in general the identifier is the extension-stripped
base with every space replaced by a hyphen, percent-quoted, where letters, digits
and hyphens pass through unchanged and unsafe ASCII characters are escaped as an
uppercase hex pair. -/
theorem C3_link_amended :
    generate_wiki_link "My-File_Name.md".toList = "[My File Name](My-File_Name)".toList ∧
    (∀ filename : PyStr,
      generate_wiki_link filename =
        ('[' :: clean_filename filename) ++
          (']' :: '(' :: pyQuote (pyReplace ' ' '-' (splitextRoot filename))) ++ [')']) ∧
    (∀ s : PyStr,
      (∀ c ∈ s, (65 ≤ c.toNat ∧ c.toNat ≤ 90) ∨ (97 ≤ c.toNat ∧ c.toNat ≤ 122) ∨
        (48 ≤ c.toNat ∧ c.toNat ≤ 57) ∨ c = '-') → pyQuote s = s) ∧
    (∀ c : Char, c.toNat < 128 → quoteSafeByte c.toNat = false →
      pyQuote [c] = ['%', hexUpper (c.toNat / 16), hexUpper (c.toNat % 16)]) := by
  refine ⟨by decide, fun filename => rfl, ?_, ?_⟩
  · intro s hs
    induction s with
    | nil => rfl
    | cons c cs ih =>
      rw [pyQuote_cons, pyQuote_safe_char (hs c (by simp))]
      simp only [List.cons_append, List.nil_append, List.cons.injEq, true_and]
      exact ih fun d hd => hs d (by simp [hd])
  · intro c hlt hunsafe
    simp [pyQuote, utf8Bytes, hlt, quoteByte, hunsafe]

/-- C3 amended, witnessed at concrete inputs. -/
theorem C3_link_witness :
    pyQuote "My-File-Name".toList = "My-File-Name".toList ∧
    pyQuote [' '] = ['%', '2', '0'] :=
  ⟨C3_link_amended.2.2.1 "My-File-Name".toList (by decide),
   by
    have h := C3_link_amended.2.2.2 ' ' (by decide) (by decide)
    simpa using h⟩

/-- C4 counterexample: the pattern `a*b*c` has two wildcard characters and occurs
literally inside the path `za*b*cz`, yet `should_ignore` returns False: a
multi-wildcard pattern is consumed by the wildcard branch and never reaches the
literal-substring rule. -/
theorem C4_fallthrough_counterexample :
    should_ignore "za*b*cz".toList false ["a*b*c".toList] = false ∧
    pyIn "a*b*c".toList "za*b*cz".toList = true := by
  decide

/-- C4 (amended): for a pattern not taken by the directory-anchored branch, a
pattern with zero wildcards matches exactly by literal-substring containment,
while a pattern with more than one wildcard is claimed by the wildcard branch
and matches nothing. -/
theorem C4_fallthrough_amended :
    ∀ (path pattern : PyStr) (d : Bool),
      (pyEndsWith pattern ['/'] && d) = false →
      ((pattern.contains '*' = false →
          should_ignore path d [pattern] = pyIn pattern path) ∧
       (pattern.contains '*' = true → (pySplit '*' pattern).length ≠ 2 →
          should_ignore path d [pattern] = false)) := by
  intro path pattern d hdir
  constructor
  · intro hstar
    have hmem : ¬ '*' ∈ pattern := by simpa using hstar
    simp [should_ignore, pattern_matches, hdir, hstar, hmem]
  · intro hstar hlen
    simp only [should_ignore, List.any_cons, List.any_nil, Bool.or_false, pattern_matches,
      hdir, Bool.false_eq_true, if_false, hstar, if_true]
    cases hsp : pySplit '*' pattern with
    | nil => simp
    | cons a rest =>
      cases rest with
      | nil => simp
      | cons b rest2 =>
        cases rest2 with
        | nil => rw [hsp] at hlen; simp at hlen
        | cons e rest3 => simp

/-- C4 amended, witnessed at concrete inputs. -/
theorem C4_fallthrough_witness :
    should_ignore "za*b*cz".toList false ["a*b*c".toList] = false ∧
    should_ignore "xabcx".toList false ["abc".toList] = pyIn "abc".toList "xabcx".toList :=
  ⟨(C4_fallthrough_amended "za*b*cz".toList "a*b*c".toList false (by decide)).2
      (by decide) (by decide),
   (C4_fallthrough_amended "xabcx".toList "abc".toList false (by decide)).1 (by decide)⟩

theorem pyEndsWith_of_suffix_of_suffix {p s t : PyStr} (h : pyEndsWith p s = true)
    (hts : t <:+ s) : pyEndsWith p t = true :=
  pyEndsWith_iff.mpr (hts.trans (pyEndsWith_iff.mp h))

/-- C5: `should_ignore` with pattern `drafts/` accepts every directory path ending
in `drafts`; with pattern `*.tmp` it accepts paths ending in `notes.tmp` but
rejects paths ending in `notes.tmp.md`; and a directory-anchored pattern also
fires when the path followed by `/` occurs inside the pattern. -/
theorem C5_pattern_examples :
    (∀ path : PyStr, pyEndsWith path "drafts".toList = true →
       should_ignore path true ["drafts/".toList] = true) ∧
    (∀ path : PyStr, pyEndsWith path "notes.tmp".toList = true →
       should_ignore path false ["*.tmp".toList] = true) ∧
    (∀ path : PyStr, pyEndsWith path "notes.tmp.md".toList = true →
       should_ignore path false ["*.tmp".toList] = false) ∧
    (∀ path pattern : PyStr, pyEndsWith pattern ['/'] = true →
       pyIn (path ++ ['/']) pattern = true →
       should_ignore path true [pattern] = true) := by
  refine ⟨?_, ?_, ?_, ?_⟩
  · intro path h
    have hd : ("drafts/".toList).dropLast = "drafts".toList := by decide
    simp only [should_ignore, List.any_cons, List.any_nil, Bool.or_false, pattern_matches, hd]
    rw [if_pos (by decide)]
    simp only [Bool.or_eq_true]
    exact Or.inl h
  · intro path h
    have h2 : pyEndsWith path ".tmp".toList = true :=
      pyEndsWith_of_suffix_of_suffix h (by decide)
    simp [should_ignore, pattern_matches, pySplit, pyStartsWith]
    exact h2
  · intro path h
    have h2 : pyEndsWith path ".tmp".toList = false := by
      cases h3 : pyEndsWith path ".tmp".toList with
      | false => rfl
      | true =>
        rcases List.suffix_or_suffix_of_suffix (pyEndsWith_iff.mp h3) (pyEndsWith_iff.mp h) with
          hs | hs
        · exact absurd hs (by decide)
        · exact absurd hs (by decide)
    simp [should_ignore, pattern_matches, pySplit, pyStartsWith]
    exact h2
  · intro path pattern h1 h2
    simp [should_ignore, pattern_matches, h1, h2]

/-- C5 witnessed at concrete paths. -/
theorem C5_pattern_witness :
    should_ignore "wiki/drafts".toList true ["drafts/".toList] = true ∧
    should_ignore "a/notes.tmp".toList false ["*.tmp".toList] = true ∧
    should_ignore "a/notes.tmp.md".toList false ["*.tmp".toList] = false ∧
    should_ignore "a".toList true ["b/a/".toList] = true :=
  ⟨C5_pattern_examples.1 "wiki/drafts".toList (by decide),
   C5_pattern_examples.2.1 "a/notes.tmp".toList (by decide),
   C5_pattern_examples.2.2.1 "a/notes.tmp.md".toList (by decide),
   C5_pattern_examples.2.2.2 "a".toList "b/a/".toList (by decide) (by decide)⟩

theorem pySplit_ne_nil (sep : Char) (s : PyStr) : pySplit sep s ≠ [] := by
  cases s with
  | nil => simp [pySplit]
  | cons c cs =>
    simp only [pySplit]
    cases pySplit sep cs with
    | nil => simp
    | cons r rs =>
      by_cases h : c = sep
      · simp [h]
      · simp [h]

theorem pySplit_headD (sep : Char) (s : PyStr) :
    (pySplit sep s).headD [] = s.takeWhile fun c => c != sep := by
  induction s with
  | nil => rfl
  | cons c cs ih =>
    simp only [pySplit, List.takeWhile]
    cases hsp : pySplit sep cs with
    | nil => exact absurd hsp (pySplit_ne_nil sep cs)
    | cons r rs =>
      rw [hsp] at ih
      by_cases h : c = sep
      · simp [h]
      · have hbne : (c != sep) = true := by simpa using h
        simp only [hbne, List.headD_cons]
        simp only [List.headD_cons] at ih
        rw [ih]
        simp [h]

/-- C8: loading the exclusion rules returns an empty pattern list when the rules
file is absent, and otherwise exactly the non-empty results of cutting each line
at the first `#` and trimming whitespace, kept in file order. -/
theorem C8_load_patterns :
    load_gitignore_patterns none = [] ∧
    ∀ ls : List PyStr,
      load_gitignore_patterns (some ls) =
        (ls.map fun line => pyStrip (line.takeWhile fun c => c != '#')).filter
          fun line => !line.isEmpty := by
  refine ⟨rfl, fun ls => ?_⟩
  simp only [load_gitignore_patterns, pySplit_headD]

/-- C8 witnessed at a concrete rules file. -/
theorem C8_load_patterns_witness :
    load_gitignore_patterns (some ["drafts/ # private".toList, "   ".toList, "# all".toList]) =
      ["drafts/".toList] :=
  by rw [C8_load_patterns.2]; decide

theorem findLastIdx_cons_pos {c x : Char} {xs : PyStr} {di : Nat}
    (h : findLastIdx c (x :: xs) = some di) (hx : x ≠ c) : 1 ≤ di := by
  simp only [findLastIdx] at h
  cases hf : findLastIdx c xs with
  | some i => rw [hf] at h; simp at h; omega
  | none => rw [hf] at h; simp [hx] at h

/-- C10: a directory name containing a dot is cleaned like a filename: the
emitted section and subsection header text drops everything from the last dot
onward and replaces hyphens and underscores by spaces; in particular a directory
named `v1.0` is rendered as `### v1` (section) or `- **v1**` (subsection). -/
theorem C10_directory_names_cleaned :
    (∀ (n : PyStr) (di : Nat), findLastIdx '.' n = some di →
       pyStartsWith n ['.'] = false →
       clean_filename n = pyReplace '_' ' ' (pyReplace '-' ' ' (n.take di))) ∧
    SLine.render (SLine.sectionHeader "v1.0".toList) = "### v1".toList ∧
    SLine.render (SLine.subHeader 1 "v1.0".toList) = "  - **v1**".toList := by
  refine ⟨?_, by decide, by decide⟩
  intro n di h hdot
  have hroot : splitextRoot n = n.take di := by
    cases n with
    | nil => simp [findLastIdx] at h
    | cons x xs =>
      have hx : x ≠ '.' := by
        intro hc
        subst hc
        simp [pyStartsWith, List.isPrefixOf] at hdot
      have hdi : 1 ≤ di := findLastIdx_cons_pos h hx
      have htake : ((x :: xs).take di).any (fun c => c != '.') = true := by
        cases di with
        | zero => omega
        | succ k =>
          simp only [List.take, List.any_cons, Bool.or_eq_true]
          exact Or.inl (by simpa using hx)
      simp [splitextRoot, h, htake]
  simp [clean_filename, hroot]

/-- C10 witnessed at the concrete directory name `v1.0`. -/
theorem C10_directory_names_witness :
    clean_filename "v1.0".toList = pyReplace '_' ' ' (pyReplace '-' ' ' ("v1.0".toList.take 2)) :=
  C10_directory_names_cleaned.1 "v1.0".toList 2 (by decide) (by decide)

/-- C7: for a root containing exactly `Home.md`, `loose.md` and `Guides/intro.md`
with no rules file, the sidebar is exactly: home header, blank, `### Guides`,
one leaf link for intro, blank, `### Unsorted`, one leaf link for loose. -/
theorem C7_end_to_end :
    (generate_sidebar "/wiki".toList
        [("Home.md".toList, FS.file), ("loose.md".toList, FS.file),
         ("Guides".toList, FS.dir [("intro.md".toList, FS.file)])] none).map SLine.render =
      ["### [[Home]]".toList, [], "### Guides".toList, "  - [intro](intro)".toList, [],
       "### Unsorted".toList, "- [loose](loose)".toList] := by
  simp +decide [generate_sidebar, processTopDirs, process_directory, processSubdirs,
    sortPairs, List.insertionSort, List.orderedInsert, nameLe, dirHasMd, walkHasMd,
    should_ignore, load_gitignore_patterns, FS.isDir, FS.isFile, FS.children,
    pyStartsWith, pyEndsWith, pjoin, SLine.render, clean_filename, generate_wiki_link,
    splitextRoot, findLastIdx, pyReplace, pyQuote, indentStr, utf8Bytes, quoteByte,
    quoteSafeByte, pyIn]

/-- C1 failing input: in a wiki containing `Guides/Sub/_x.md` only, the
`has_md_files` walk for `Sub` returns true (the walk counts `_x.md` because it
ends in `.md` and no pattern ignores it), yet rendering `Sub` produces no lines
(the leaf filter drops protected `_`-files), so the built sidebar ends with the
subsection header `- **Sub**` followed by nothing: a header with an empty body,
contradicting the claimed agreement between lookahead and rendering. -/
theorem C1_lookahead_disagrees :
    walkHasMd [] (pjoin (pjoin "/wiki".toList "Guides".toList) "Sub".toList)
        [("_x.md".toList, FS.file)] = true ∧
    process_directory (pjoin (pjoin "/wiki".toList "Guides".toList) "Sub".toList)
        [("_x.md".toList, FS.file)] 2 [] = [] ∧
    (generate_sidebar "/wiki".toList
        [("Guides".toList, FS.dir [("Sub".toList, FS.dir [("_x.md".toList, FS.file)])])]
        none).map SLine.render =
      ["### [[Home]]".toList, [], "### Guides".toList, "  - **Sub**".toList, []] := by
  refine ⟨?_, ?_, ?_⟩
  · simp +decide [walkHasMd, should_ignore, pyEndsWith, pjoin]
  · simp +decide [process_directory, processSubdirs, sortPairs, List.insertionSort,
      List.orderedInsert, nameLe, walkHasMd, should_ignore, FS.isDir, FS.isFile,
      FS.children, pyStartsWith, pyEndsWith, pjoin]
  · simp +decide [generate_sidebar, processTopDirs, process_directory, processSubdirs,
      sortPairs, List.insertionSort, List.orderedInsert, nameLe, dirHasMd, walkHasMd,
      should_ignore, load_gitignore_patterns, FS.isDir, FS.isFile, FS.children,
      pyStartsWith, pyEndsWith, pjoin, SLine.render, clean_filename, generate_wiki_link,
      splitextRoot, findLastIdx, pyReplace, pyQuote, indentStr, utf8Bytes, quoteByte,
      quoteSafeByte, pyIn]

/-- C2 counterexample: a top-level directory named `_d` is not excluded - the
directory filters only test for the hidden marker `.` - so the built sidebar
contains a section header derived from an entry whose name starts with `_`. -/
theorem C2_protected_dir_counterexample :
    SLine.sectionHeader "_d".toList ∈
      generate_sidebar "/wiki".toList
        [("_d".toList, FS.dir [("a.md".toList, FS.file)])] none ∧
    pyStartsWith "_d".toList ['_'] = true := by
  refine ⟨?_, by decide⟩
  simp +decide [generate_sidebar, processTopDirs, process_directory, processSubdirs,
    sortPairs, List.insertionSort, List.orderedInsert, nameLe, dirHasMd, walkHasMd,
    should_ignore, load_gitignore_patterns, FS.isDir, FS.isFile, FS.children,
    pyStartsWith, pyEndsWith, pjoin]

theorem processSubdirs_eq (path : PyStr) (l : List (PyStr × FS)) (level : Nat)
    (pats : List PyStr) :
    processSubdirs path l level pats =
      ((l.filter fun it => walkHasMd pats (pjoin path it.1) it.2.children).map fun it =>
        SLine.subHeader level it.1 ::
          process_directory (pjoin path it.1) it.2.children (level + 1) pats).flatten := by
  induction l with
  | nil => simp [processSubdirs]
  | cons hd tl ih =>
    obtain ⟨n, e⟩ := hd
    rw [processSubdirs]
    by_cases hw : walkHasMd pats (pjoin path n) e.children = true
    · simp [List.filter_cons, hw, ih]
    · simp only [Bool.not_eq_true] at hw
      simp [List.filter_cons, hw, ih]

theorem sorted_sortPairs (l : List (PyStr × FS)) : List.Sorted nameLe (sortPairs l) :=
  List.sorted_insertionSort nameLe l

theorem mem_sortPairs {it : PyStr × FS} {l : List (PyStr × FS)} :
    it ∈ sortPairs l ↔ it ∈ l :=
  (List.perm_insertionSort nameLe l).mem_iff

theorem sorted_names_of_sublist {l2 : List (PyStr × FS)} (l : List (PyStr × FS))
    (h : l2.Sublist (sortPairs l)) :
    List.Sorted (fun a b : PyStr => a ≤ b) (l2.map Prod.fst) :=
  List.pairwise_map.mpr ((sorted_sortPairs l).sublist h)

/-- C6: at every directory level, `process_directory` emits all document leaf
links first and all subdirectory subsections afterwards; both groups are sorted
by name, and each subsection header is immediately followed by the recursive
rendering of that subdirectory at the next indent level. -/
theorem C6_level_ordering (path : PyStr) (cs : List (PyStr × FS)) (level : Nat)
    (pats : List PyStr) :
    ∃ mdNames : List PyStr, ∃ subEntries : List (PyStr × FS),
      List.Sorted (fun a b : PyStr => a ≤ b) mdNames ∧
      List.Sorted (fun a b : PyStr => a ≤ b) (subEntries.map Prod.fst) ∧
      process_directory path cs level pats =
        (mdNames.map fun n => SLine.leafLink level n) ++
        (subEntries.map fun it =>
          SLine.subHeader level it.1 ::
            process_directory (pjoin path it.1) it.2.children (level + 1) pats).flatten := by
  refine ⟨((sortPairs cs).filter fun it =>
      it.2.isFile && pyEndsWith it.1 ".md".toList && !pyStartsWith it.1 ['_'] &&
        !pyStartsWith it.1 ['.'] && !should_ignore (pjoin path it.1) false pats).map Prod.fst,
    ((sortPairs cs).filter fun it =>
      it.2.isDir && !pyStartsWith it.1 ['.'] &&
        !should_ignore (pjoin path it.1) true pats).filter
      (fun it => walkHasMd pats (pjoin path it.1) it.2.children), ?_, ?_, ?_⟩
  · exact sorted_names_of_sublist cs (List.filter_sublist _)
  · exact sorted_names_of_sublist cs ((List.filter_sublist _).trans (List.filter_sublist _))
  · rw [process_directory, processSubdirs_eq, List.map_map]
    rfl

theorem lineOk_process_directory :
    ∀ (N : Nat) (path : PyStr) (cs : List (PyStr × FS)) (level : Nat) (pats : List PyStr),
      sizeOf cs ≤ N →
      ∀ line ∈ process_directory path cs level pats, lineOk line = true := by
  intro N
  induction N with
  | zero =>
    intro path cs level pats hsz
    exfalso
    cases cs with
    | nil => simp at hsz
    | cons a l => simp only [List.cons.sizeOf_spec] at hsz; omega
  | succ N ih =>
    intro path cs level pats hsz line hline
    rw [process_directory, processSubdirs_eq] at hline
    rcases List.mem_append.mp hline with hmem | hmem
    · obtain ⟨it, hit, rfl⟩ := List.mem_map.mp hmem
      have hp := List.of_mem_filter hit
      simp only [Bool.and_eq_true, Bool.not_eq_eq_eq_not, Bool.not_true] at hp
      simp [lineOk, hp.1.1.2, hp.1.2]
    · obtain ⟨block, hblock, hlineblock⟩ := List.mem_flatten.mp hmem
      obtain ⟨it, hit, rfl⟩ := List.mem_map.mp hblock
      have hit2 := List.mem_of_mem_filter hit
      have hdirp := List.of_mem_filter hit2
      simp only [Bool.and_eq_true, Bool.not_eq_eq_eq_not, Bool.not_true] at hdirp
      rcases List.mem_cons.mp hlineblock with rfl | hrec
      · simp [lineOk, hdirp.1.2]
      · obtain ⟨n, e⟩ := it
        have hmemcs : (n, e) ∈ cs := mem_sortPairs.mp (List.mem_of_mem_filter hit2)
        have hszlt : sizeOf (n, e) < sizeOf cs := List.sizeOf_lt_of_mem hmemcs
        have hsnd : sizeOf e < sizeOf (n, e) := by
          simp only [Prod.mk.sizeOf_spec]; omega
        have hch : sizeOf (FS.children e) ≤ sizeOf e := by
          cases e with
          | file => simp [FS.children]
          | dir cs2 => simp [FS.children, FS.dir.sizeOf_spec]
        exact ih (pjoin path n) e.children (level + 1) pats (by omega) line hrec

theorem lineOk_processTopDirs :
    ∀ (wp : PyStr) (l : List (PyStr × FS)) (pats : List PyStr),
      (∀ it ∈ l, pyStartsWith it.1 ['.'] = false) →
      ∀ line ∈ processTopDirs wp l pats, lineOk line = true := by
  intro wp l pats
  induction l with
  | nil =>
    intro _ line hline
    simp [processTopDirs] at hline
  | cons hd tl ih =>
    intro hl line hline
    obtain ⟨n, e⟩ := hd
    rw [processTopDirs] at hline
    rcases List.mem_append.mp hline with hmem | hmem
    · by_cases hig : should_ignore (pjoin wp n) true pats = true
      · simp [hig] at hmem
      · simp only [Bool.not_eq_true] at hig
        by_cases hmd : dirHasMd e.children = true
        · simp only [hig, Bool.false_eq_true, if_false, hmd, Bool.not_true,
            Bool.false_eq_true, if_false] at hmem
          rcases List.mem_cons.mp hmem with rfl | hmem2
          · have := hl (n, e) (by simp)
            simp [lineOk, this]
          · rcases List.mem_append.mp hmem2 with hmem3 | hmem3
            · exact lineOk_process_directory (sizeOf e.children) (pjoin wp n) e.children 1
                pats (le_refl _) line hmem3
            · simp at hmem3
              subst hmem3
              rfl
        · simp only [Bool.not_eq_true] at hmd
          simp [hig, hmd] at hmem
    · exact ih (fun it hit => hl it (by simp [hit])) line hmem

/-- C2 (amended): no leaf-link line in the generated sidebar comes from a file
whose name starts with `_` or `.`, and no section or subsection header comes
from a directory whose name starts with `.`; directories starting with `_`,
however, are not excluded (only the hidden marker is checked for directories). -/
theorem C2_reserved_markers_amended :
    ∀ (wikiPath : PyStr) (root : List (PyStr × FS)) (g : Option (List PyStr)),
      ∀ line ∈ generate_sidebar wikiPath root g, lineOk line = true := by
  intro wp root g line hline
  simp only [generate_sidebar] at hline
  rcases List.mem_append.mp hline with hmem | hmem
  · rcases List.mem_append.mp hmem with hmem2 | hmem2
    · rcases List.mem_cons.mp hmem2 with rfl | hmem3
      · rfl
      · rcases List.mem_cons.mp hmem3 with rfl | hmem4
        · rfl
        · simp at hmem4
    · refine lineOk_processTopDirs wp _ _ ?_ line hmem2
      intro it hit
      have hp := List.of_mem_filter hit
      simp only [Bool.and_eq_true, Bool.not_eq_eq_eq_not, Bool.not_true] at hp
      exact hp.1.2
  · by_cases hempty : (((sortPairs root).filter fun it =>
        it.2.isFile && pyEndsWith it.1 ".md".toList && !pyStartsWith it.1 ['_'] &&
          !pyStartsWith it.1 ['.'] && !(it.1 == "Home.md".toList) &&
          !should_ignore (pjoin wp it.1) false (load_gitignore_patterns g)).isEmpty) = true
    · rw [if_pos hempty] at hmem
      simp at hmem
    · simp only [Bool.not_eq_true] at hempty
      simp only [hempty, Bool.false_eq_true, if_false] at hmem
      rcases List.mem_cons.mp hmem with rfl | hmem2
      · rfl
      · obtain ⟨it, hit, rfl⟩ := List.mem_map.mp hmem2
        have hit2 := mem_sortPairs.mp hit
        have hp := List.of_mem_filter hit2
        simp only [Bool.and_eq_true, Bool.not_eq_eq_eq_not, Bool.not_true] at hp
        simp [lineOk, hp.1.1.1.2, hp.1.1.2]

/-- C2 amended, witnessed: the leaf link for `loose.md` in the end-to-end example
satisfies the marker discipline. -/
theorem C2_reserved_markers_witness :
    lineOk (SLine.leafLink 0 "loose.md".toList) = true := by
  refine C2_reserved_markers_amended "/wiki".toList
    [("Home.md".toList, FS.file), ("loose.md".toList, FS.file),
     ("Guides".toList, FS.dir [("intro.md".toList, FS.file)])] none
    (SLine.leafLink 0 "loose.md".toList) ?_
  simp +decide [generate_sidebar, processTopDirs, process_directory, processSubdirs,
    sortPairs, List.insertionSort, List.orderedInsert, nameLe, dirHasMd, walkHasMd,
    should_ignore, load_gitignore_patterns, FS.isDir, FS.isFile, FS.children,
    pyStartsWith, pyEndsWith, pjoin]

theorem sorted_strict_of_nodup {m : List (PyStr × FS)} (hs : List.Sorted nameLe m)
    (hnd : (m.map Prod.fst).Nodup) : List.Sorted nameLt m := by
  have hne : List.Pairwise (fun a b : PyStr × FS => a.1 ≠ b.1) m :=
    List.pairwise_map.mp hnd
  exact (hs.and hne).imp fun h => lt_of_le_of_ne h.1 h.2

theorem sortPairs_eq_of_perm {l l2 : List (PyStr × FS)} (h : l.Perm l2)
    (hnd : (l.map Prod.fst).Nodup) : sortPairs l = sortPairs l2 := by
  have hp : (sortPairs l).Perm (sortPairs l2) :=
    (List.perm_insertionSort nameLe l).trans
      (h.trans (List.perm_insertionSort nameLe l2).symm)
  have hnd1 : ((sortPairs l).map Prod.fst).Nodup :=
    (((List.perm_insertionSort nameLe l).map Prod.fst).nodup_iff).mpr hnd
  have hnd2 : ((sortPairs l2).map Prod.fst).Nodup :=
    ((hp.map Prod.fst).nodup_iff).mp hnd1
  exact List.eq_of_perm_of_sorted hp
    (sorted_strict_of_nodup (sorted_sortPairs l) hnd1)
    (sorted_strict_of_nodup (sorted_sortPairs l2) hnd2)

/-- C9: the build is deterministic: over the same filesystem state - the same
root listing up to the (unspecified) order in which the operating system reports
it, with no duplicate names - the same root path and the same rules file, two
runs produce byte-identical output, because every listing is sorted before use. -/
theorem C9_deterministic_build :
    ∀ (wikiPath : PyStr) (gitignoreFile : Option (List PyStr))
      (root root2 : List (PyStr × FS)),
      root.Perm root2 → (root.map Prod.fst).Nodup →
      sidebar_text wikiPath root gitignoreFile = sidebar_text wikiPath root2 gitignoreFile := by
  intro wp g root root2 hp hnd
  have h : sortPairs root = sortPairs root2 := sortPairs_eq_of_perm hp hnd
  simp only [sidebar_text, generate_sidebar, h]

/-- C9 witnessed: the two orders in which the OS can report a two-entry root
yield the same output bytes. -/
theorem C9_deterministic_witness :
    sidebar_text "/w".toList [("a.md".toList, FS.file), ("b.md".toList, FS.file)] none =
      sidebar_text "/w".toList [("b.md".toList, FS.file), ("a.md".toList, FS.file)] none :=
  C9_deterministic_build "/w".toList none _ _ (List.Perm.swap _ _ _) (by decide)
